import Mathlib

/-!
Verification development for the bitstring repository.

The mutable bit container (`BitArray`) is embedded as a `List Bool` (bit 0
first), mutating methods become functions returning the new bit list, and
Python exceptions become `Except PyErr` results (or an explicit
`List Bool × Option PyErr` pair where the state at the time of the
exception matters).  Python `int` is `ℤ` (or `ℕ` where the source value is
known non-negative), Python `float` is the `PyFloat` type below (exact
rationals plus the special values), and Python strings are Lean `String` /
`List Char`.

Functions of the repository that live in modules outside the provided
sources (`bits.py`, `bitstore.py`, the registry initialisation) are
modelled from the specification; each such definition carries a doc
comment starting with "Modelled from the spec".  Everything else is a
direct translation of the corresponding Python function.
-/

/-- Error classes raised by the embedded code: `ValueError`, `IndexError`,
Python's `NameError` (an unresolvable bare name), and the library's
`InterpretError`. -/
inductive PyErr where
  | valueError
  | indexError
  | nameError
  | interpretError
deriving DecidableEq

/-! ### Generic helpers for Python semantics -/

/-- Numeric value of a (non-empty, all-digit) character list, accumulator
style, as Python `int` parsing does for the digit part. -/
def digitsVal (cs : List Char) : ℕ :=
  cs.foldl (fun acc c => acc * 10 + (c.toNat - 48)) 0

/-- Python `str.strip()`: remove leading and trailing whitespace. -/
def pyStrip (cs : List Char) : List Char :=
  ((cs.dropWhile Char.isWhitespace).reverse.dropWhile Char.isWhitespace).reverse

/-- Python `int(s)`: optional surrounding whitespace, optional sign, then at
least one digit; `none` models the `ValueError` raised otherwise. -/
def pyInt? (cs : List Char) : Option ℤ :=
  let cs := pyStrip cs
  match cs with
  | '-' :: ds => if ds ≠ [] ∧ ds.all Char.isDigit then some (-(digitsVal ds : ℤ)) else none
  | '+' :: ds => if ds ≠ [] ∧ ds.all Char.isDigit then some ((digitsVal ds : ℤ)) else none
  | ds => if ds ≠ [] ∧ ds.all Char.isDigit then some ((digitsVal ds : ℤ)) else none

/-- Python `s.split(',')` on character lists: split at every comma, keeping
empty pieces (so the empty string yields one empty piece). -/
def pySplitComma : List Char → List (List Char)
  | [] => [[]]
  | c :: cs =>
    if c = ',' then [] :: pySplitComma cs
    else
      match pySplitComma cs with
      | [] => [[c]]
      | g :: gs => (c :: g) :: gs

/-! ### The bit container and the primitives it is built on -/

/-- Modelled from the spec: `Bits._validate_slice` (in `bits.py`, not among
the provided sources).  Omitted `start`/`end` default to `0`/`length`,
negative indices resolve Python-slice-style (`length + index`), and the
normalised range is rejected with `ValueError` unless
`0 ≤ start ≤ end ≤ length`. -/
def validate_slice (len : ℕ) (s? e? : Option ℤ) : Except PyErr (ℕ × ℕ) :=
  let s := s?.getD 0
  let e := e?.getD (len : ℤ)
  let s := if s < 0 then s + len else s
  let e := if e < 0 then e + len else e
  if 0 ≤ s ∧ s ≤ e ∧ e ≤ (len : ℤ) then Except.ok (s.toNat, e.toNat)
  else Except.error PyErr.valueError

/-- Modelled from the spec: `Bits._slice` / Python slicing `self[s:e]` on the
bit container (in `bits.py`, not among the provided sources). -/
def pyslice (l : List Bool) (s e : ℕ) : List Bool :=
  (l.drop s).take (e - s)

/-- Modelled from the spec: `Bits._overwrite` (in `bits.py`, not among the
provided sources): replace `new.length` bits starting at `pos`, growing the
container when the write overruns the end. -/
def overwrite_bits (l new : List Bool) (pos : ℕ) : List Bool :=
  l.take pos ++ new ++ l.drop (pos + new.length)

/-- Split a bit list into its 8-bit bytes (the final byte may be partial). -/
def chunks8 : List Bool → List (List Bool)
  | [] => []
  | b0 :: b1 :: b2 :: b3 :: b4 :: b5 :: b6 :: b7 :: rest =>
    [b0, b1, b2, b3, b4, b5, b6, b7] :: chunks8 rest
  | l => [l]

/-- Modelled from the spec: `Bits._reversebytes` (in `bits.py`, not among the
provided sources): reverse the order of the 8-bit bytes of the sub-range
`[s, e)`, leaving the rest of the container unchanged. -/
def reversebytes (l : List Bool) (s e : ℕ) : List Bool :=
  l.take s ++ (chunks8 (pyslice l s e)).reverse.flatten ++ l.drop e

/-- Does `pat` occur in `l` starting at bit position `pos`? -/
def matchesAt (pat l : List Bool) (pos : ℕ) : Bool :=
  decide (((l.drop pos).take pat.length) = pat)

/-- Occurrences of `pat` inside `l` that end at or before `e`, scanning left
to right and skipping past each match (non-overlapping); `fuel` bounds the
recursion and any value above `e` is enough. -/
def occurrencesAux (pat l : List Bool) (e : ℕ) : ℕ → ℕ → List ℕ
  | _, 0 => []
  | pos, fuel + 1 =>
    if pos + pat.length > e then []
    else if matchesAt pat l pos then pos :: occurrencesAux pat l e (pos + pat.length) fuel
    else occurrencesAux pat l e (pos + 1) fuel

/-- Modelled from the spec: `Bits.findall` (in `bits.py`, not among the
provided sources): every non-overlapping occurrence of `pat` within
`[s, e)`, left to right, bounded by `count` occurrences when `count` is
non-negative (a negative `count` means unbounded). -/
def findall (pat : List Bool) (s e : ℕ) (count : ℤ) (l : List Bool) : List ℕ :=
  let occs := occurrencesAux pat l e s (e + 1)
  if count < 0 then occs else occs.take count.toNat

/-! ### BitArray mutating methods (translated from `bitarray_.py`) -/

/-- Translation of `BitArray.ror` (`bitarray_.py`): rotate the sub-range
right by `bits` after reducing modulo the sub-range length; negative
amounts raise `ValueError`. -/
def BitArray.ror (bits : ℤ) (s? e? : Option ℤ) (l : List Bool) : Except PyErr (List Bool) :=
  if bits < 0 then Except.error PyErr.valueError
  else
    match validate_slice l.length s? e? with
    | Except.error err => Except.error err
    | Except.ok (s, e) =>
      if s = e then Except.ok l
      else
        let k := (bits % ((e : ℤ) - (s : ℤ))).toNat
        if k = 0 then Except.ok l
        else
          let sl := pyslice l s e
          let rotated := sl.drop (sl.length - k) ++ sl.take (sl.length - k)
          Except.ok (overwrite_bits l rotated s)

/-- Translation of `BitArray.rol` (`bitarray_.py`): rotate the sub-range
left by `bits` after reducing modulo the sub-range length; negative
amounts raise `ValueError`. -/
def BitArray.rol (bits : ℤ) (s? e? : Option ℤ) (l : List Bool) : Except PyErr (List Bool) :=
  if bits < 0 then Except.error PyErr.valueError
  else
    match validate_slice l.length s? e? with
    | Except.error err => Except.error err
    | Except.ok (s, e) =>
      if s = e then Except.ok l
      else
        let k := (bits % ((e : ℤ) - (s : ℤ))).toNat
        if k = 0 then Except.ok l
        else
          let sl := pyslice l s e
          let rotated := sl.drop k ++ sl.take k
          Except.ok (overwrite_bits l rotated s)

/-- Translation of `BitArray.clear` (`bitarray_.py`).  Its body is
`self._bitstore = BitStore()`, but the name `BitStore` is never imported in
`bitarray_.py` (the module imports only `copy`, `numbers`, `re`, `abc`,
`typing`, `bitstring.utils`, the exception classes, `bitstring.bits` names
and `bitstring.dtypes`), so evaluating the right-hand side raises
`NameError` before any assignment happens and the container is left
unchanged.  The result pairs the final state with the raised error. -/
def BitArray.clear (l : List Bool) : List Bool × Option PyErr :=
  (l, some PyErr.nameError)

/-- The `pos` argument of `BitArray.set` / `BitArray.invert`: omitted, a
single index, or an iterable of indices. -/
inductive SetPos where
  | whole
  | one (p : ℤ)
  | many (ps : List ℤ)

/-- Resolve a (already validated) possibly-negative index. -/
def normIdx (len : ℕ) (p : ℤ) : ℕ :=
  (if p < 0 then p + len else p).toNat

/-- Loop body of `BitArray.set` for an iterable `pos`: each position is
validated and then immediately written, so an out-of-range position raises
`IndexError` after the earlier writes have happened. -/
def setLoop (value : Bool) : List ℤ → List Bool → List Bool × Option PyErr
  | [], l => (l, none)
  | p :: ps, l =>
    if p < -(l.length : ℤ) ∨ (l.length : ℤ) ≤ p then (l, some PyErr.indexError)
    else setLoop value ps (l.set (normIdx l.length p) value)

/-- Translation of `BitArray.set` (`bitarray_.py`).  The result pairs the
final state of the container with the raised error, if any. -/
def BitArray.set (value : Bool) (pos : SetPos) (l : List Bool) : List Bool × Option PyErr :=
  match pos with
  | SetPos.whole => (l.map (fun _ => value), none)
  | SetPos.one p =>
    if p < -(l.length : ℤ) ∨ (l.length : ℤ) ≤ p then (l, some PyErr.indexError)
    else (l.set (normIdx l.length p) value, none)
  | SetPos.many ps => setLoop value ps l

/-- Flip the bit at index `i`. -/
def flipAt (l : List Bool) (i : ℕ) : List Bool :=
  l.set i (!(l.getD i false))

/-- Loop body of `BitArray.invert` for an iterable `pos`. -/
def invertLoop : List ℤ → List Bool → List Bool × Option PyErr
  | [], l => (l, none)
  | p :: ps, l =>
    if p < -(l.length : ℤ) ∨ (l.length : ℤ) ≤ p then (l, some PyErr.indexError)
    else invertLoop ps (flipAt l (normIdx l.length p))

/-- Translation of `BitArray.invert` (`bitarray_.py`). -/
def BitArray.invert (pos : SetPos) (l : List Bool) : List Bool × Option PyErr :=
  match pos with
  | SetPos.whole => (l.map (fun b => !b), none)
  | SetPos.one p =>
    if p < -(l.length : ℤ) ∨ (l.length : ℤ) ≤ p then (l, some PyErr.indexError)
    else (flipAt l (normIdx l.length p), none)
  | SetPos.many ps => invertLoop ps l

/-- Translation of `BitArray.replace` (`bitarray_.py`): empty `old` raises
`ValueError`; otherwise the occurrences returned by `findall` (bounded by
`count`, `-1` when omitted) are each overwritten with `new`, and the number
of replacements is returned alongside the new container. -/
def BitArray.replace (old new : List Bool) (s? e? : Option ℤ) (count : Option ℤ)
    (l : List Bool) : Except PyErr (List Bool × ℕ) :=
  if old = [] then Except.error PyErr.valueError
  else
    match validate_slice l.length s? e? with
    | Except.error err => Except.error err
    | Except.ok (s, e) =>
      let c := count.getD (-1)
      let positions := findall old s e c l
      let l' := positions.foldl (fun acc pos => overwrite_bits acc new pos) l
      Except.ok (l', positions.length)

/-- The `fmt` argument of `BitArray.byteswap`: omitted, an integer, an
iterable of integers, or a compact string. -/
inductive SwapFmt where
  | noFmt
  | int (n : ℤ)
  | ints (ns : List ℤ)
  | str (s : String)

/-- Inner loop of `BitArray.byteswap`: one pass over the group pattern for
repeat index `i`; `swap_start` is recomputed from `i` for every group and
the loop breaks as soon as a group would overrun `e`. -/
def byteswapInner (fmtList : List ℤ) (swapStart e : ℤ) (l : List Bool) : List Bool :=
  match fmtList with
  | [] => l
  | sz :: rest =>
    let se := swapStart + sz
    if se > e then l
    else byteswapInner rest swapStart e (reversebytes l swapStart.toNat se.toNat)

/-- Translation of `BitArray.byteswap` (`bitarray_.py`).  Note that an
integer `fmt` is wrapped as `[fmt]` and summed directly into `fmt_bits`
without any conversion from bytes to bits. -/
def BitArray.byteswap (fmt : SwapFmt) (s? e? : Option ℤ) (rep : Bool) (l : List Bool) :
    Except PyErr (List Bool × ℤ) :=
  match validate_slice l.length s? e? with
  | Except.error err => Except.error err
  | Except.ok (s, e) =>
    let fmtList? : Except PyErr (List ℤ) :=
      match fmt with
      | SwapFmt.noFmt => Except.ok [((e : ℤ) - (s : ℤ))]
      | SwapFmt.int n => if n = 0 then Except.ok [((e : ℤ) - (s : ℤ))] else Except.ok [n]
      | SwapFmt.ints ns => Except.ok ns
      | SwapFmt.str str =>
        ((pySplitComma str.toList).filter (fun x => x ≠ [])).foldr
          (fun x acc =>
            match pyInt? x, acc with
            | some v, Except.ok vs => Except.ok (v * 8 :: vs)
            | none, _ => Except.error PyErr.valueError
            | _, Except.error err => Except.error err)
          (Except.ok [])
    match fmtList? with
    | Except.error err => Except.error err
    | Except.ok fmtList =>
      let fmtBits : ℤ := fmtList.foldl (· + ·) 0
      if fmtBits = 0 then Except.ok (l, 0)
      else
        let repeats : ℤ := if rep then Int.fdiv ((e : ℤ) - (s : ℤ)) fmtBits else 1
        let l' := (List.range repeats.toNat).foldl
          (fun acc i => byteswapInner fmtList ((s : ℤ) + (i : ℤ) * fmtBits) (e : ℤ) acc) l
        Except.ok (l', repeats)

/-! ### Format-string tokenizer (translated from `utils.py`) -/

/-- Characters allowed in a dtype name by `NAME_INT_RE`. -/
def isNameChar (c : Char) : Bool := c.isAlpha || c.isDigit || c = '_'

/-- Helper for `MULTIPLICATIVE_RE`: scanning a reversed character list, split
at the first `*` found (which is the last `*` of the original list). -/
def revSplitStar : List Char → Option (List Char × List Char)
  | [] => none
  | c :: cs =>
    if c = '*' then some ([], cs)
    else (revSplitStar cs).map (fun p => (c :: p.1, p.2))

/-- Translation of `MULTIPLICATIVE_RE` (`^(?P<factor>.*)\*(?P<token>.+)`):
split at the last `*` that is followed by at least one character, returning
the factor part and the token part. -/
def matchMultiplicative (cs : List Char) : Option (List Char × List Char) :=
  match cs.reverse with
  | [] => none
  | c :: rest =>
    match revSplitStar rest with
    | none => none
    | some (tokRevTail, factorRev) => some (factorRev.reverse, (c :: tokRevTail).reverse)

/-- Translation of `NAME_INT_RE` (`^([a-zA-Z][a-zA-Z0-9_]*?):?(\d*)$`): a
name made of letters, digits and underscores starting with a letter,
optionally a colon, then an optional run of digits giving the length. -/
def matchNameInt (cs : List Char) : Option (String × Option ℤ) :=
  let rev := cs.reverse
  let digits := (rev.takeWhile Char.isDigit).reverse
  let preRev := rev.dropWhile Char.isDigit
  let nameCs :=
    match preRev with
    | ':' :: rest => rest.reverse
    | _ => preRev.reverse
  match nameCs with
  | [] => none
  | c :: rest =>
    if c.isAlpha ∧ (c :: rest).all isNameChar then
      some (String.mk (c :: rest), if digits = [] then none else some ((digitsVal digits : ℕ) : ℤ))
    else none

/-- Translation of `LITERAL_RE` (`^(?P<name>0([xob]))(?P<value>.+)`, case
insensitive): a `0x`/`0o`/`0b` prefix and a non-empty value. -/
def matchLiteral (cs : List Char) : Option (String × String) :=
  match cs with
  | c0 :: c1 :: rest =>
    if c0 = '0' ∧ (c1.toLower = 'x' ∨ c1.toLower = 'o' ∨ c1.toLower = 'b') ∧ rest ≠ [] then
      some (String.mk [c0, c1], String.mk rest)
    else none
  | _ => none

/-- Translation of `DEFAULT_BITS` (`^(?P<len>[^=]+)?(=(?P<value>.*))?$`):
the part before the first `=` (when non-empty) and the part after it. -/
def splitEq (cs : List Char) : Option (List Char) × Option (List Char) :=
  let lenPart := cs.takeWhile (fun c => c ≠ '=')
  let rest := cs.dropWhile (fun c => c ≠ '=')
  ((if lenPart = [] then none else some lenPart),
   match rest with
   | '=' :: v => some v
   | _ => none)

/-- Tokens produced by the tokenizer: name, optional length, optional
literal value. -/
abbrev Tok := String × Option ℤ × Option String

/-- One iteration of the token loop of `tokenparser` (`utils.py`): strip the
token, pass reserved keys through, parse an optional `factor*` prefix, then
try the name, literal and default shapes in order. -/
def tokstep (keys : List String) (st : Bool × List Tok) (raw : List Char) :
    Except PyErr (Bool × List Tok) :=
  let token := pyStrip raw
  let tokenS := String.mk token
  let stretchy := st.1
  let toks := st.2
  if tokenS ∈ keys then Except.ok (stretchy, toks ++ [(tokenS, none, none)])
  else
    let fsplit :=
      match matchMultiplicative token with
      | some (f, t) => (some f, t)
      | none => (none, token)
    let factor? := fsplit.1
    let token := fsplit.2
    let factorE : Except PyErr ℤ :=
      match factor? with
      | none => Except.ok 1
      | some f =>
        match pyInt? f with
        | some v => Except.ok v
        | none => Except.error PyErr.valueError
    match factorE with
    | Except.error e => Except.error e
    | Except.ok factor =>
      match matchNameInt token with
      | some (name, len) =>
        Except.ok (stretchy, toks ++ List.replicate factor.toNat (name, len, (none : Option String)))
      | none =>
        match matchLiteral token with
        | some (name, value) =>
          Except.ok (stretchy, toks ++ List.replicate factor.toNat (name, none, some value))
        | none =>
          if token = [] then Except.ok (true, toks)
          else
            let sp := splitEq token
            let value? := sp.2.map String.mk
            match sp.1 with
            | none => Except.ok (stretchy, toks ++ List.replicate factor.toNat ("bits", none, value?))
            | some lcs =>
              let stretchy' := if lcs.getLast? = some '*' then true else stretchy
              let lcs := if lcs.getLast? = some '*' then lcs.dropLast else lcs
              match pyInt? lcs with
              | some v =>
                Except.ok (stretchy', toks ++ List.replicate factor.toNat ("bits", some v, value?))
              | none => Except.error PyErr.valueError

/-- Translation of `tokenparser` (`utils.py`): split the format string at
commas and run the token loop. -/
def tokenparser (fmt : String) (keys : List String) : Except PyErr (Bool × List Tok) :=
  (pySplitComma fmt.toList).foldlM (tokstep keys) (false, [])

/-- Translation of `BRACKET_RE` (`(?P<factor>\d+)\*\(`) together with
`re.search`: find the leftmost digit run that is immediately followed by
`*(`, returning the text before the match, the digit run, and the text
after the opening parenthesis. -/
def findBracket : List Char → Option (List Char × List Char × List Char)
  | [] => none
  | c :: cs =>
    if c.isDigit then
      match (c :: cs).dropWhile Char.isDigit with
      | '*' :: '(' :: after => some ([], (c :: cs).takeWhile Char.isDigit, after)
      | _ => (findBracket cs).map (fun r => (c :: r.1, r.2.1, r.2.2))
    else (findBracket cs).map (fun r => (c :: r.1, r.2.1, r.2.2))

/-- One iteration of the `while` loop of `expand_brackets` (`utils.py`):
`Except.ok none` when `BRACKET_RE` no longer matches (the loop exits),
`Except.ok (some s)` after one expansion, and an error when no closing
parenthesis exists (Python's `s.index` raises `ValueError`). -/
def expandStep (cs : List Char) : Except PyErr (Option (List Char)) :=
  match findBracket cs with
  | none => Except.ok none
  | some (before, digits, after) =>
    let content := after.takeWhile (fun c => c ≠ ')')
    let rest := after.dropWhile (fun c => c ≠ ')')
    match rest with
    | ')' :: tail =>
      Except.ok (some (before ++ List.intercalate [','] (List.replicate (digitsVal digits) content) ++ tail))
    | _ => Except.error PyErr.valueError

/-- The iteration relation of `expand_brackets` (`utils.py`): `s` rewrites
to `t` by running `expandStep` until it reports no further match. -/
inductive ExpandsTo : List Char → List Char → Prop where
  | done (cs : List Char) : expandStep cs = Except.ok none → ExpandsTo cs cs
  | step (cs cs' t : List Char) : expandStep cs = Except.ok (some cs') → ExpandsTo cs' t →
      ExpandsTo cs t

/-- String-level wrapper: `expand_brackets s` terminates with result `t`. -/
def expand_brackets_to (s t : String) : Prop := ExpandsTo s.toList t.toList

/-! ### Dtype registry (translated from `dtypes.py`) -/

/-- Shape of a family's decode function: bits, start position, bound length.
The value type is specialised to `ℤ` (enough for the integer families the
claims exercise); interpretation failures surface as `InterpretError`. -/
abbrev GetFn := List Bool → ℕ → Option ℕ → Except PyErr ℤ

/-- Translation of the `MetaDtype` value object (`dtypes.py`).  The encode
direction (`set_fn`) is not needed by any claim and is not modelled. -/
structure MetaDtype where
  name : String
  get_fn : GetFn
  is_integer : Bool
  is_float : Bool
  is_signed : Bool
  is_unknown_length : Bool
  is_fixed_length : Bool
  length : Option ℕ

/-- Translation of `MetaDtype.__init__` (`dtypes.py`): the consistency
checks raise `ValueError`, and `is_fixed_length` is derived from whether a
canonical length is given. -/
def mkMetaDtype (name : String) (get_fn : GetFn)
    (is_integer is_float is_signed is_unknown_length : Bool) (length : Option ℕ) :
    Except PyErr MetaDtype :=
  if is_unknown_length ∧ length ≠ none then Except.error PyErr.valueError
  else if is_float ∧ is_integer then Except.error PyErr.valueError
  else Except.ok ⟨name, get_fn, is_integer, is_float, is_signed, is_unknown_length,
    length.isSome, length⟩

/-- Translation of the concrete `Dtype` value object (`dtypes.py`); `get` is
the family's decode function closed over the bound length. -/
structure Dtype where
  name : String
  length : Option ℕ
  get : List Bool → ℕ → Except PyErr ℤ
  is_integer : Bool
  is_signed : Bool
  is_float : Bool
  is_fixed_length : Bool
  is_unknown_length : Bool

/-- Translation of `MetaDtype.getDtype` (`dtypes.py`): binding of a family
to a concrete length, with exactly the source's branch structure. -/
def MetaDtype.getDtype (m : MetaDtype) (length : Option ℕ) : Except PyErr Dtype :=
  match length with
  | none =>
    if ¬ m.is_fixed_length then Except.error PyErr.valueError
    else Except.ok ⟨m.name, none, fun bs pos => m.get_fn bs pos none,
      m.is_integer, m.is_signed, m.is_float, m.is_fixed_length, m.is_unknown_length⟩
  | some len =>
    if m.is_unknown_length then Except.error PyErr.valueError
    else if m.is_fixed_length then
      if len ≠ 0 ∧ some len ≠ m.length then Except.error PyErr.valueError
      else Except.ok ⟨m.name, m.length, fun bs pos => m.get_fn bs pos m.length,
        m.is_integer, m.is_signed, m.is_float, m.is_fixed_length, m.is_unknown_length⟩
    else Except.ok ⟨m.name, some len, fun bs pos => m.get_fn bs pos (some len),
      m.is_integer, m.is_signed, m.is_float, m.is_fixed_length, m.is_unknown_length⟩

/-- Modelled from the spec: `Bits(length)` (constructor in `bits.py`, not
among the provided sources) — a zero-filled bit pattern of the given
length, the empty pattern when the length is `None`. -/
def Bits_zero (length : Option ℕ) : List Bool :=
  match length with
  | none => []
  | some n => List.replicate n false

/-- Translation of `Register.get_dtype` (`dtypes.py`): the registry is the
name-to-family mapping; an unknown name's `KeyError` is re-raised as
`ValueError`, and when the supplied `length` is not `0` the bound dtype is
self-checked by decoding `Bits(length)`, turning an `InterpretError` into a
`ValueError`. -/
def Register.get_dtype (reg : List (String × MetaDtype)) (name : String)
    (length : Option ℕ) : Except PyErr Dtype :=
  match List.lookup name reg with
  | none => Except.error PyErr.valueError
  | some meta =>
    match meta.getDtype length with
    | Except.error err => Except.error err
    | Except.ok d =>
      if length ≠ some 0 then
        match d.get (Bits_zero length) 0 with
        | Except.error PyErr.interpretError => Except.error PyErr.valueError
        | Except.error err => Except.error err
        | Except.ok _ => Except.ok d
      else Except.ok d

/-- Modelled from the spec: the decode function of the `uint` family
(registered outside the provided sources) — interpret `length` bits from
`pos` as a big-endian unsigned integer; a missing or unusable length is an
interpretation failure. -/
def uint_get_fn : GetFn := fun bits pos len =>
  match len with
  | none => Except.error PyErr.interpretError
  | some L =>
    if L = 0 ∨ bits.length < pos + L then Except.error PyErr.interpretError
    else Except.ok (((bits.drop pos).take L).foldl (fun acc b => 2 * acc + (if b then 1 else 0)) 0)

/-- The `uint` family: needs an explicit length each time (neither fixed
nor unknown length). -/
def uintMeta : MetaDtype :=
  ⟨"uint", uint_get_fn, true, false, false, false, false, none⟩

/-- A registry holding just the `uint` family. -/
def uintRegistry : List (String × MetaDtype) := [("uint", uintMeta)]

/-- A fixed-length family of canonical length 16 whose decode always
succeeds, used to probe the length-binding rules. -/
def f16meta : MetaDtype :=
  ⟨"f16", fun _ _ _ => Except.ok 0, false, true, false, false, true, some 16⟩

/-- A registry holding just the `f16` family. -/
def fixedRegistry : List (String × MetaDtype) := [("f16", f16meta)]

/-- A fixed-length family of canonical length 16 whose decode always fails
with `InterpretError`, used to probe the self-check. -/
def fbadMeta : MetaDtype :=
  ⟨"fbad", fun _ _ _ => Except.error PyErr.interpretError, false, true, false, false, true, some 16⟩

/-- A registry holding just the `fbad` family. -/
def fbadRegistry : List (String × MetaDtype) := [("fbad", fbadMeta)]

/-- A variable-length family whose decode always fails with
`InterpretError`, used to probe the self-check's error conversion. -/
def badMeta : MetaDtype :=
  ⟨"bad", fun _ _ _ => Except.error PyErr.interpretError, true, false, false, false, false, none⟩

/-- A registry holding just the `bad` family. -/
def badRegistry : List (String × MetaDtype) := [("bad", badMeta)]

/-! ### Micro-float codecs (translated from `fp8.py` and `mxfp.py`) -/

/-- Model of a Python `float` restricted to the values the codecs
distinguish: NaN, signed infinities, signed zeros, and non-zero finite
values (which are exact dyadic rationals in every use the claims make). -/
inductive PyFloat where
  | nan
  | inf (neg : Bool)
  | zero (neg : Bool)
  | finite (q : ℚ)
deriving DecidableEq

/-- Python `math.isnan(f)`. -/
def PyFloat.isnan : PyFloat → Bool
  | nan => true
  | _ => false

/-- Python `f == 0` (true for both `0.0` and `-0.0`). -/
def PyFloat.isZero : PyFloat → Bool
  | zero _ => true
  | finite q => decide (q = 0)
  | _ => false

/-- Python `f < 0` (false for `-0.0` and for NaN). -/
def PyFloat.ltZero : PyFloat → Bool
  | inf b => b
  | finite q => decide (q < 0)
  | _ => false

/-- Python `math.isinf(f)`. -/
def PyFloat.isinf : PyFloat → Bool
  | inf _ => true
  | _ => false

/-- Python unary negation `-f`. -/
def PyFloat.neg : PyFloat → PyFloat
  | nan => nan
  | inf b => inf !b
  | zero b => zero !b
  | finite q => finite (-q)

/-- Rational value of a finite `PyFloat` (junk value `0` elsewhere; only
used on branches where the value is finite). -/
def PyFloat.toRat : PyFloat → ℚ
  | finite q => q
  | _ => 0

/-- Translation of the `Binary8Format` value object (`fp8.py`). -/
structure Binary8Format where
  exp_bits : ℕ
  bias : ℤ
  pos_clamp_value : ℕ
  neg_clamp_value : ℕ

/-- Translation of `Binary8Format.__init__` (`fp8.py`): the clamp values
are always `127` and `255`. -/
def mkBinary8Format (e : ℕ) (b : ℤ) : Binary8Format := ⟨e, b, 127, 255⟩

/-- The `p4binary` format (`fp8.py`): 4 exponent bits, bias 8. -/
def p4binary_fmt : Binary8Format := mkBinary8Format 4 8

/-- The `p3binary` format (`fp8.py`): 5 exponent bits, bias 16. -/
def p3binary_fmt : Binary8Format := mkBinary8Format 5 16

/-- Straight-line tail of `Binary8Format.float_to_int8` (`fp8.py`) for a
positive finite input `q`, with the sign bit already extracted.  Python's
`int(...)` truncation equals the floor here because its arguments are
non-negative on every path; `x & ((1 << k) - 1)` is `x &&& (2 ^ k - 1)` and
`x << k` is `x <<< k`. -/
def Binary8Format.float_to_int8_body (fmt : Binary8Format) (sign_bit : ℕ) (q : ℚ) : ℕ :=
  let exponent : ℤ := Int.log 2 q
  let mantissa : ℤ := ⌊(q / (2 : ℚ) ^ exponent - 1) * (2 : ℚ) ^ ((8 : ℤ) - fmt.exp_bits)⌋
  let biased : ℤ := exponent + fmt.bias
  if biased < 0 then
    let mantissa : ℤ := ⌊q * (2 : ℚ) ^ ((7 : ℤ) - fmt.bias)⌋
    sign_bit ||| ((0 : ℕ) <<< (7 - fmt.exp_bits)) ||| (mantissa.toNat &&& (2 ^ (7 - fmt.exp_bits) - 1))
  else if (2 : ℤ) ^ fmt.exp_bits - 1 ≤ biased then
    if sign_bit = 0 then fmt.pos_clamp_value else fmt.neg_clamp_value
  else
    sign_bit ||| (biased.toNat <<< (7 - fmt.exp_bits)) ||| (mantissa.toNat &&& (2 ^ (7 - fmt.exp_bits) - 1))

/-- Translation of `Binary8Format.float_to_int8` (`fp8.py`): NaN and zero
are dispatched first, then the sign is extracted and the encoding proceeds
on the absolute value. -/
def Binary8Format.float_to_int8 (fmt : Binary8Format) (f : PyFloat) : ℕ :=
  if f.isnan then 0xFF
  else if f.isZero then 0x00
  else
    let sign_bit : ℕ := if f.ltZero then 0x80 else 0x00
    let f := if f.ltZero then f.neg else f
    if f.isinf then sign_bit ||| 0x7F
    else fmt.float_to_int8_body sign_bit f.toRat

/-- Loop body of `Binary8Format.createLUT_for_binary8_to_float` (`fp8.py`):
the decoded value of the 8-bit pattern `i`. -/
def binary8_decode (fmt : Binary8Format) (i : ℕ) : PyFloat :=
  let sign : ℚ := if i &&& 0x80 ≠ 0 then -1 else 1
  let exponent : ℕ := (i >>> (7 - fmt.exp_bits)) &&& (2 ^ fmt.exp_bits - 1)
  let mantissa : ℕ := i &&& (2 ^ (7 - fmt.exp_bits) - 1)
  if exponent = 0 then
    if mantissa = 0 then PyFloat.zero false
    else PyFloat.finite (sign * ((mantissa : ℚ) / (2 : ℚ) ^ ((7 : ℤ) - fmt.exp_bits)) * (2 : ℚ) ^ (-fmt.bias + 1))
  else if exponent = 2 ^ fmt.exp_bits - 1 then
    if mantissa = 0 then (if sign = 1 then PyFloat.inf false else PyFloat.inf true)
    else PyFloat.nan
  else
    PyFloat.finite (sign * (1 + (mantissa : ℚ) / (2 : ℚ) ^ ((7 : ℤ) - fmt.exp_bits)) * (2 : ℚ) ^ ((exponent : ℤ) - fmt.bias))

/-- Translation of `Binary8Format.createLUT_for_binary8_to_float`
(`fp8.py`): the 256-entry decode table. -/
def createLUT_for_binary8_to_float (fmt : Binary8Format) : List PyFloat :=
  (List.range 256).map (binary8_decode fmt)

/-- Python `round()` (round half to even) on an exact rational. -/
def pyRound (q : ℚ) : ℤ :=
  let f := ⌊q⌋
  let r := q - f
  if r < 1 / 2 then f
  else if 1 / 2 < r then f + 1
  else if f % 2 = 0 then f else f + 1

/-- Translation of the `MXFPFormat` value object (`mxfp.py`). -/
structure MXFPFormat where
  exp_bits : ℕ
  mantissa_bits : ℕ
  bias : ℤ
  mxfp_overflow : String
  pos_clamp_value : ℕ
  neg_clamp_value : ℕ

/-- Translation of `MXFPFormat.__init__` (`mxfp.py`) including the special
clamp values of the `e4m3` and `e5m2` shapes. -/
def mkMXFPFormat (e m : ℕ) (bias : ℤ) (ovf : String) : MXFPFormat :=
  let pos := 2 ^ (e + m) - 1
  let neg := 2 ^ (1 + e + m) - 1
  let pn :=
    if e = 4 ∧ m = 3 then (if ovf = "saturate" then ((126 : ℕ), (254 : ℕ)) else (255, 255))
    else (pos, neg)
  let pn :=
    if e = 5 ∧ m = 2 then (if ovf = "saturate" then ((123 : ℕ), (251 : ℕ)) else (124, 252))
    else pn
  ⟨e, m, bias, ovf, pn.1, pn.2⟩

/-- Rounding and packing tail of `MXFPFormat.float_to_int` (`mxfp.py`):
round the mantissa to the available bits, carry into the exponent on
mantissa overflow, and assemble sign, exponent and mantissa fields. -/
def mxfp_round_pack (fmt : MXFPFormat) (sign : ℕ) (mantissa : ℚ) (biased : ℤ) : ℕ :=
  let mi := pyRound (mantissa * 2 ^ fmt.mantissa_bits)
  let mb := if mi = 2 ^ fmt.mantissa_bits then ((0 : ℤ), biased + 1) else (mi, biased)
  (sign <<< (fmt.exp_bits + fmt.mantissa_bits)) ||| (mb.2.toNat <<< fmt.mantissa_bits) ||| mb.1.toNat

/-- Translation of `MXFPFormat.float_to_int` (`mxfp.py`). -/
def MXFPFormat.float_to_int (fmt : MXFPFormat) (f : PyFloat) : ℕ :=
  if f.isnan then 2 ^ (fmt.exp_bits + fmt.mantissa_bits + 1) - 1
  else if f.isZero then 0
  else
    let sign : ℕ := if f.ltZero then 1 else 0
    let fa := if f.ltZero then f.neg else f
    if fa.isinf ∨ (2 : ℚ) ^ (fmt.exp_bits + fmt.mantissa_bits) ≤ fa.toRat then
      if fmt.mxfp_overflow = "saturate" then
        (if sign = 1 then fmt.neg_clamp_value else fmt.pos_clamp_value)
      else
        (if sign = 1 then fmt.neg_clamp_value else fmt.pos_clamp_value)
    else
      let q := fa.toRat
      let exponent : ℤ := Int.log 2 q
      let mantissa : ℚ := q / (2 : ℚ) ^ exponent - 1
      let biased : ℤ := exponent + fmt.bias
      if biased < 0 then
        mxfp_round_pack fmt sign (mantissa * (2 : ℚ) ^ (exponent + fmt.bias)) 0
      else if (2 : ℤ) ^ fmt.exp_bits - 1 ≤ biased then
        if fmt.mxfp_overflow = "saturate" then
          (if sign = 1 then fmt.neg_clamp_value else fmt.pos_clamp_value)
        else
          mxfp_round_pack fmt sign (1 - (2 : ℚ) ^ (-(fmt.mantissa_bits : ℤ))) ((2 : ℤ) ^ fmt.exp_bits - 1)
      else
        mxfp_round_pack fmt sign mantissa biased

/-- The `e2m1` MXFP format (`mxfp.py`). -/
def e2m1mxfp_fmt : MXFPFormat := mkMXFPFormat 2 1 1 "saturate"

/-- The `e4m3` saturating MXFP format (`mxfp.py`). -/
def e4m3mxfp_saturate_fmt : MXFPFormat := mkMXFPFormat 4 3 7 "saturate"

/-- Is position `p` inside the valid index range of a container of length
`len` (Python semantics: valid iff `-len ≤ p < len`)? -/
def inRange (len : ℕ) (p : ℤ) : Bool :=
  decide (-(len : ℤ) ≤ p ∧ p < (len : ℤ))

/-! ### Helper lemmas about slices and overwrites -/

theorem take_length_of_le {l : List Bool} {s : ℕ} (h : s ≤ l.length) :
    (l.take s).length = s := by
  simp [List.length_take, Nat.min_eq_left h]

theorem pyslice_length {l : List Bool} {s e : ℕ} (hse : s ≤ e) (hel : e ≤ l.length) :
    (pyslice l s e).length = e - s := by
  simp only [pyslice, List.length_take, List.length_drop]
  omega

theorem list_decomp {l : List Bool} {s e : ℕ} (hse : s ≤ e) (_hel : e ≤ l.length) :
    l = l.take s ++ pyslice l s e ++ l.drop e := by
  have h1 : l.take s ++ pyslice l s e = l.take e := by
    rw [pyslice, ← List.take_add]
    congr 1
    omega
  rw [h1, List.take_append_drop]

theorem overwrite_at {A B C r : List Bool} (h : r.length = B.length) :
    overwrite_bits (A ++ B ++ C) r A.length = A ++ r ++ C := by
  have h1 : (A ++ B ++ C).take A.length = A := by
    rw [List.append_assoc, List.take_left]
  have h2 : (A ++ B ++ C).drop (A.length + r.length) = C := by
    rw [h, ← List.length_append, List.drop_left]
  rw [overwrite_bits, h1, h2]

theorem pyslice_at {A B C : List Bool} :
    pyslice (A ++ B ++ C) A.length (A.length + B.length) = B := by
  have h1 : (A ++ B ++ C).drop A.length = B ++ C := by
    rw [List.append_assoc, List.drop_left]
  rw [pyslice, h1]
  simp [List.take_left]

theorem rot_unrot (B : List Bool) (k : ℕ) (hk : k ≤ B.length) :
    (B.drop k ++ B.take k).drop ((B.drop k ++ B.take k).length - k) ++
      (B.drop k ++ B.take k).take ((B.drop k ++ B.take k).length - k) = B := by
  have hdl : (B.drop k).length = B.length - k := List.length_drop k B
  have hRlen : (B.drop k ++ B.take k).length = B.length := by
    simp [List.length_take, List.length_drop]
    omega
  rw [hRlen]
  have h1 : (B.drop k ++ B.take k).drop (B.length - k) = B.take k := by
    rw [← hdl, List.drop_left]
  have h2 : (B.drop k ++ B.take k).take (B.length - k) = B.drop k := by
    rw [← hdl, List.take_left]
  rw [h1, h2, List.take_append_drop]

theorem overwrite_patch (l r : List Bool) (s e : ℕ) (he : s + r.length = e) :
    overwrite_bits l r s = l.take s ++ r ++ l.drop e := by
  rw [overwrite_bits, he]

theorem pyslice_at2 (A B C : List Bool) (s e : ℕ) (hA : A.length = s) (hB : s + B.length = e) :
    pyslice (A ++ B ++ C) s e = B := by
  subst hA
  subst hB
  exact pyslice_at

theorem take_at2 (A B C : List Bool) (s : ℕ) (hA : A.length = s) :
    (A ++ B ++ C).take s = A := by
  subst hA
  rw [List.append_assoc, List.take_left]

theorem drop_at2 (A B C : List Bool) (s e : ℕ) (hA : A.length = s) (hB : s + B.length = e) :
    (A ++ B ++ C).drop e = C := by
  subst hA
  subst hB
  rw [← List.length_append, List.drop_left]

theorem validate_slice_ok {len s e : ℕ} (hse : s ≤ e) (hel : e ≤ len) :
    validate_slice len (some (s : ℤ)) (some (e : ℤ)) = Except.ok (s, e) := by
  have hs : ¬ ((s : ℤ) < 0) := by omega
  have he : ¬ ((e : ℤ) < 0) := by omega
  simp only [validate_slice, Option.getD_some, if_neg hs, if_neg he]
  rw [if_pos (by omega)]
  simp

/-! ### Claim theorems -/

/-- C8: every call to `clear()` raises `NameError` — the body
`self._bitstore = BitStore()` uses the name `BitStore`, which is not
imported in `bitarray_.py` — and the container is left unchanged (in
particular a non-empty container keeps its non-zero length), contradicting
the claim that `clear()` raises nothing and leaves length 0. -/
theorem clear_raises_nameerror :
    (∀ l : List Bool, BitArray.clear l = (l, some PyErr.nameError))
    ∧ (BitArray.clear [true, false]).1.length = 2
    ∧ (2 : ℕ) ≠ 0 :=
  ⟨fun _ => rfl, rfl, by decide⟩

/-- C6 counterexample: `set` with the iterable positions `[0, 5]` on a
2-bit container raises `IndexError`, yet bit 0 has been modified — the
claimed atomicity ("the raised IndexError leaves no bit modified") fails. -/
theorem set_iterable_not_atomic :
    BitArray.set true (SetPos.many [0, 5]) [false, false] = ([true, false], some PyErr.indexError)
    ∧ ([true, false] ≠ ([false, false] : List Bool)) := by
  constructor
  · rfl
  · decide

theorem setLoop_characterisation (v : Bool) :
    ∀ (ps : List ℤ) (l : List Bool),
    setLoop v ps l =
      ((ps.takeWhile (inRange l.length)).foldl (fun acc q => acc.set (normIdx l.length q) v) l,
       if ps.all (inRange l.length) then none else some PyErr.indexError) := by
  intro ps
  induction ps with
  | nil => intro l; simp [setLoop]
  | cons p ps ih =>
    intro l
    by_cases hp : inRange l.length p
    · have hcond : ¬ (p < -(l.length : ℤ) ∨ (l.length : ℤ) ≤ p) := by
        simp only [inRange, decide_eq_true_eq] at hp
        omega
      have hlen : (l.set (normIdx l.length p) v).length = l.length := List.length_set l _ v
      simp only [setLoop, if_neg hcond, ih, hlen, List.takeWhile_cons, hp, List.all_cons,
        Bool.true_and, List.foldl_cons, if_true]
    · have hcond : p < -(l.length : ℤ) ∨ (l.length : ℤ) ≤ p := by
        simp only [inRange, decide_eq_true_eq] at hp
        omega
      simp only [setLoop, if_pos hcond, List.takeWhile_cons, List.all_cons]
      simp only [Bool.not_eq_true] at hp
      simp [hp]

theorem invertLoop_characterisation :
    ∀ (ps : List ℤ) (l : List Bool),
    invertLoop ps l =
      ((ps.takeWhile (inRange l.length)).foldl (fun acc q => flipAt acc (normIdx l.length q)) l,
       if ps.all (inRange l.length) then none else some PyErr.indexError) := by
  intro ps
  induction ps with
  | nil => intro l; simp [invertLoop]
  | cons p ps ih =>
    intro l
    by_cases hp : inRange l.length p
    · have hcond : ¬ (p < -(l.length : ℤ) ∨ (l.length : ℤ) ≤ p) := by
        simp only [inRange, decide_eq_true_eq] at hp
        omega
      have hlen : (flipAt l (normIdx l.length p)).length = l.length := List.length_set l _ _
      simp only [invertLoop, if_neg hcond, ih, hlen, List.takeWhile_cons, hp, List.all_cons,
        Bool.true_and, List.foldl_cons, if_true]
    · have hcond : p < -(l.length : ℤ) ∨ (l.length : ℤ) ≤ p := by
        simp only [inRange, decide_eq_true_eq] at hp
        omega
      simp only [invertLoop, if_pos hcond, List.takeWhile_cons, List.all_cons]
      simp only [Bool.not_eq_true] at hp
      simp [hp]

/-- C6 amended: `set`/`invert` with a single integer position validate
before mutating (an out-of-range position raises `IndexError` with the
container unchanged, an in-range one mutates exactly that bit); with an
iterable of positions the entries are processed left to right, the bits at
the valid positions before the first invalid one are already modified when
`IndexError` is raised, and no error occurs iff every position is in
range. -/
theorem set_invert_error_behaviour :
    ∀ (v : Bool) (p : ℤ) (ps : List ℤ) (l : List Bool),
    (¬ inRange l.length p = true →
        BitArray.set v (SetPos.one p) l = (l, some PyErr.indexError)
        ∧ BitArray.invert (SetPos.one p) l = (l, some PyErr.indexError))
    ∧ (inRange l.length p = true →
        BitArray.set v (SetPos.one p) l = (l.set (normIdx l.length p) v, none))
    ∧ BitArray.set v (SetPos.many ps) l =
        ((ps.takeWhile (inRange l.length)).foldl (fun acc q => acc.set (normIdx l.length q) v) l,
         if ps.all (inRange l.length) then none else some PyErr.indexError)
    ∧ BitArray.invert (SetPos.many ps) l =
        ((ps.takeWhile (inRange l.length)).foldl (fun acc q => flipAt acc (normIdx l.length q)) l,
         if ps.all (inRange l.length) then none else some PyErr.indexError) := by
  intro v p ps l
  refine ⟨?_, ?_, ?_, ?_⟩
  · intro hp
    have hcond : p < -(l.length : ℤ) ∨ (l.length : ℤ) ≤ p := by
      simp only [inRange, decide_eq_true_eq] at hp
      omega
    exact ⟨by simp [BitArray.set, if_pos hcond], by simp [BitArray.invert, if_pos hcond]⟩
  · intro hp
    have hcond : ¬ (p < -(l.length : ℤ) ∨ (l.length : ℤ) ≤ p) := by
      simp only [inRange, decide_eq_true_eq] at hp
      omega
    simp [BitArray.set, if_neg hcond]
  · exact setLoop_characterisation v ps l
  · exact invertLoop_characterisation ps l

/-- C6 witness: concrete application of the amended statement. -/
theorem set_invert_error_behaviour_witness :
    (¬ inRange 2 5 = true)
    ∧ BitArray.set true (SetPos.one 5) [false, false] = ([false, false], some PyErr.indexError) :=
  ⟨by decide, ((set_invert_error_behaviour true 5 [0, 5] [false, false]).1 (by decide)).1⟩

/-- C5: for every valid sub-range `[s, e)` and every `n ≥ 0`, `rol(n)`
followed by `ror(n)` on the same range restores the container bit for bit;
the amount is first reduced modulo the sub-range length, rotating an empty
sub-range is a no-op, and a negative amount raises `ValueError`. -/
theorem rol_ror_restores :
    ∀ (l : List Bool) (s e : ℕ) (n : ℤ), s ≤ e → e ≤ l.length →
    ((0 ≤ n →
        (BitArray.rol n (some s) (some e) l).bind (BitArray.ror n (some s) (some e))
          = Except.ok l)
    ∧ (0 ≤ n → s = e →
        BitArray.rol n (some s) (some e) l = Except.ok l
        ∧ BitArray.ror n (some s) (some e) l = Except.ok l)
    ∧ (0 ≤ n → s < e →
        BitArray.rol n (some s) (some e) l
          = BitArray.rol (n % ((e : ℤ) - (s : ℤ))) (some s) (some e) l)
    ∧ (n < 0 →
        BitArray.rol n (some s) (some e) l = Except.error PyErr.valueError
        ∧ BitArray.ror n (some s) (some e) l = Except.error PyErr.valueError)) := by
  intro l s e n hse hel
  refine ⟨?_, ?_, ?_, ?_⟩
  · -- round trip
    intro hn
    have hnneg : ¬ (n < 0) := by omega
    by_cases heq : s = e
    · subst heq
      simp [BitArray.rol, BitArray.ror, hnneg, validate_slice_ok hse hel, Except.bind]
    · have hslen : s ≤ l.length := le_trans hse hel
      have hlt : s < e := lt_of_le_of_ne hse heq
      have hBlen : (pyslice l s e).length = e - s := pyslice_length hse hel
      have hmpos : (0 : ℤ) < (e : ℤ) - (s : ℤ) := by omega
      have hmod_lt : n % ((e : ℤ) - (s : ℤ)) < (e : ℤ) - (s : ℤ) :=
        Int.emod_lt_of_pos n hmpos
      have hmod_nonneg : 0 ≤ n % ((e : ℤ) - (s : ℤ)) := Int.emod_nonneg n (by omega)
      by_cases hk0 : (n % ((e : ℤ) - (s : ℤ))).toNat = 0
      · simp [BitArray.rol, BitArray.ror, hnneg, validate_slice_ok hse hel, heq, hk0,
          Except.bind]
      · have hklt : (n % ((e : ℤ) - (s : ℤ))).toNat < e - s := by omega
        have hepatch : s + ((pyslice l s e).drop (n % ((e : ℤ) - (s : ℤ))).toNat ++
            (pyslice l s e).take (n % ((e : ℤ) - (s : ℤ))).toNat).length = e := by
          simp only [List.length_append, List.length_take, List.length_drop]
          omega
        simp only [BitArray.rol, if_neg hnneg, validate_slice_ok hse hel, if_neg heq,
          if_neg hk0, Except.bind]
        rw [overwrite_patch l ((pyslice l s e).drop (n % ((e : ℤ) - (s : ℤ))).toNat ++
          (pyslice l s e).take (n % ((e : ℤ) - (s : ℤ))).toNat) s e hepatch]
        generalize hBg : pyslice l s e = B at hBlen hepatch ⊢
        generalize hkg : (n % ((e : ℤ) - (s : ℤ))).toNat = k at hklt hk0 hepatch ⊢
        have hAlen : (l.take s).length = s := take_length_of_le hslen
        have hkB : k ≤ B.length := by omega
        have hlen1 : (l.take s ++ (B.drop k ++ B.take k) ++ l.drop e).length = l.length := by
          simp only [List.length_append, List.length_take, List.length_drop]
          omega
        simp only [BitArray.ror, if_neg hnneg, hlen1, validate_slice_ok hse hel, if_neg heq]
        rw [hkg, if_neg hk0]
        rw [pyslice_at2 (l.take s) (B.drop k ++ B.take k) (l.drop e) s e hAlen hepatch]
        rw [rot_unrot B k hkB]
        rw [overwrite_patch (l.take s ++ (B.drop k ++ B.take k) ++ l.drop e) B s e (by omega)]
        rw [take_at2 (l.take s) (B.drop k ++ B.take k) (l.drop e) s hAlen]
        rw [drop_at2 (l.take s) (B.drop k ++ B.take k) (l.drop e) s e hAlen hepatch]
        rw [← hBg, ← list_decomp hse hel]
  · -- empty sub-range is a no-op
    intro hn heq
    subst heq
    have hnneg : ¬ (n < 0) := by omega
    constructor
    · simp [BitArray.rol, hnneg, validate_slice_ok hse hel]
    · simp [BitArray.ror, hnneg, validate_slice_ok hse hel]
  · -- the amount is reduced modulo the sub-range length
    intro hn hlt
    have hnneg : ¬ (n < 0) := by omega
    have hmpos : (0 : ℤ) < (e : ℤ) - (s : ℤ) := by omega
    have hmod_nonneg : 0 ≤ n % ((e : ℤ) - (s : ℤ)) := Int.emod_nonneg n (by omega)
    have hnneg' : ¬ (n % ((e : ℤ) - (s : ℤ)) < 0) := by omega
    have hkk : n % ((e : ℤ) - (s : ℤ)) % ((e : ℤ) - (s : ℤ)) = n % ((e : ℤ) - (s : ℤ)) :=
      Int.emod_emod_of_dvd n dvd_rfl
    simp only [BitArray.rol, if_neg hnneg, if_neg hnneg', validate_slice_ok hse hel, hkk]
  · -- negative amounts raise ValueError
    intro hn
    exact ⟨by simp [BitArray.rol, hn], by simp [BitArray.ror, hn]⟩

/-- C5 witness: a concrete rotation round trip on an 8-bit container. -/
theorem rol_ror_restores_witness :
    ((2 : ℕ) ≤ 7 ∧ (7 : ℕ) ≤ 8 ∧ (0 : ℤ) ≤ 12)
    ∧ (BitArray.rol 12 (some 2) (some 7)
        [true, true, false, true, false, false, true, false]).bind
        (BitArray.ror 12 (some 2) (some 7))
      = Except.ok [true, true, false, true, false, false, true, false] :=
  ⟨⟨by decide, by decide, by decide⟩,
    (rol_ror_restores [true, true, false, true, false, false, true, false] 2 7 12
      (by decide) (by decide)).1 (by decide)⟩

/-- The 32-bit container 0x012345 67 used for the byteswap scenario:
bytes 0x01, 0x23, 0x45, 0x67, most significant bit of each byte first. -/
def c1_input : List Bool :=
  [false, false, false, false, false, false, false, true,
   false, false, true, false, false, false, true, true,
   false, true, false, false, false, true, false, true,
   false, true, true, false, false, true, true, true]

/-- What the claim expects from `byteswap(fmt=2, repeat=True)` on
`c1_input`: bytes 0x23, 0x01, 0x67, 0x45 (each 2-byte group swapped). -/
def c1_claimed : List Bool :=
  [false, false, true, false, false, false, true, true,
   false, false, false, false, false, false, false, true,
   false, true, true, false, false, true, true, true,
   false, true, false, false, false, true, false, true]

/-- C1: evaluating `byteswap(fmt=2, start=0, end=32, repeat=True)` on a
4-byte container.  The code treats the integer `fmt` as a count of bits
(it never multiplies by 8), so it computes 16 two-bit groups, each "byte
reversal" of a 2-bit range is a no-op, and the call returns 16 with the
container unchanged — not the 2 two-byte group swaps returning 2 that the
claim (and the method's own docstring) describe. -/
theorem byteswap_int_fmt_counts_bits :
    BitArray.byteswap (SwapFmt.int 2) (some 0) (some 32) true c1_input
      = Except.ok (c1_input, 16)
    ∧ (16 : ℤ) ≠ 2
    ∧ c1_input ≠ c1_claimed := by
  refine ⟨rfl, by decide, by decide⟩

/-- C3: `replace` raises `ValueError` on an empty `old`; otherwise it
replaces the non-overlapping occurrences found in `[start, end)` left to
right, stops after at most `count` replacements when `count ≥ 0`, and
returns the number of replacements made; on a container holding 8
occurrences of `old`, `count = 3` performs exactly 3 replacements and
returns 3. -/
theorem replace_bounded_by_count :
    ∀ (old new l : List Bool) (s e : ℕ) (count : Option ℤ),
    s ≤ e → e ≤ l.length →
    ((old = [] →
        BitArray.replace old new (some s) (some e) count l = Except.error PyErr.valueError)
    ∧ (old ≠ [] →
        ∃ l', BitArray.replace old new (some s) (some e) count l
          = Except.ok (l', (findall old s e (count.getD (-1)) l).length))
    ∧ (old ≠ [] → ∀ c : ℤ, count = some c → 0 ≤ c →
        ∀ l' nrep, BitArray.replace old new (some s) (some e) count l = Except.ok (l', nrep) →
          (nrep : ℤ) ≤ c)
    ∧ ((findall [true, true] 0 16 (-1) (List.replicate 16 true)).length = 8
        ∧ BitArray.replace [true, true] [false, false] (some 0) (some 16) (some 3)
            (List.replicate 16 true)
          = Except.ok (List.replicate 6 false ++ List.replicate 10 true, 3))) := by
  intro old new l s e count hse hel
  refine ⟨?_, ?_, ?_, by decide, rfl⟩
  · intro hold
    simp [BitArray.replace, hold]
  · intro hold
    simp only [BitArray.replace, if_neg hold, validate_slice_ok hse hel]
    exact ⟨_, rfl⟩
  · intro hold c hc hcnn l' nrep hrep
    subst hc
    simp only [BitArray.replace, if_neg hold, validate_slice_ok hse hel,
      Option.getD_some] at hrep
    have hpair := Except.ok.inj hrep
    have hlen : (findall old s e c l).length = nrep := congrArg Prod.snd hpair
    have hnneg : ¬ (c < 0) := by omega
    have hb : (findall old s e c l).length ≤ c.toNat := by
      simp only [findall, if_neg hnneg, List.length_take]
      omega
    omega

/-- C3 witness: concrete application on the 8-occurrence container. -/
theorem replace_bounded_by_count_witness :
    ((0 : ℕ) ≤ 16 ∧ (16 : ℕ) ≤ (List.replicate 16 true).length ∧ ([true, true] : List Bool) ≠ [])
    ∧ ∃ l', BitArray.replace [true, true] [false, false] (some 0) (some 16) (some 3)
        (List.replicate 16 true)
      = Except.ok (l', (findall [true, true] 0 16 ((some (3 : ℤ)).getD (-1))
          (List.replicate 16 true)).length) :=
  ⟨⟨by decide, by decide, by decide⟩,
    (replace_bounded_by_count [true, true] [false, false] (List.replicate 16 true) 0 16
      (some 3) (by decide) (by decide)).2.1 (by decide)⟩

/-- An unknown-length family (its bit length is data dependent, so a
length must never be supplied), used to probe the binding rules. -/
def ueMeta : MetaDtype :=
  ⟨"ue", fun _ _ _ => Except.error PyErr.interpretError, true, false, false, true, false, none⟩

/-- C2 counterexample: (i) requesting the fixed-length family `f16`
(canonical length 16) with the length unset yields a dtype whose bound
length is `None`, not the canonical 16 the claim describes; (ii) requesting
a fixed-length family whose decode always fails with `InterpretError` at
length `0` succeeds — the self-check the claim describes is skipped for a
supplied length of `0`. -/
theorem get_dtype_unset_keeps_length_unbound :
    (Register.get_dtype fixedRegistry "f16" none).map Dtype.length = Except.ok none
    ∧ f16meta.length = some 16
    ∧ (Register.get_dtype fbadRegistry "fbad" (some 0)).map Dtype.length = Except.ok (some 16) :=
  ⟨rfl, rfl, rfl⟩

/-- C2 amended: `Register.get_dtype` raises a `ValueError` for an
unregistered name; an unknown-length family rejects any explicitly
supplied length; a fixed-length family called with length `0` binds to the
family's canonical length, while an unset length yields a dtype with no
bound length, and any other length different from the canonical one is
rejected; when the supplied length is non-zero the bound dtype is
self-checked by decoding a zero-filled pattern of the supplied length,
re-raising `InterpretError` as `ValueError`; `get_dtype("uint", 8)`
succeeds and its `get` applied to an 8-bit zero pattern returns `0`, while
`get_dtype("bogus", 8)` raises `ValueError`. -/
theorem get_dtype_binding_rules :
    ∀ (reg : List (String × MetaDtype)) (name : String) (len : Option ℕ) (m : MetaDtype)
      (L k : ℕ),
    ((List.lookup name reg = none →
        Register.get_dtype reg name len = Except.error PyErr.valueError)
    ∧ (m.is_unknown_length = true →
        m.getDtype (some k) = Except.error PyErr.valueError)
    ∧ (m.is_fixed_length = true → m.is_unknown_length = false →
        (m.getDtype (some 0)).map Dtype.length = Except.ok m.length)
    ∧ (m.is_fixed_length = true → m.is_unknown_length = false → m.length = some L →
        k ≠ 0 → k ≠ L → m.getDtype (some k) = Except.error PyErr.valueError)
    ∧ (m.is_fixed_length = true →
        (m.getDtype none).map Dtype.length = Except.ok none)
    ∧ (m.is_fixed_length = false →
        m.getDtype none = Except.error PyErr.valueError)
    ∧ ((Register.get_dtype uintRegistry "uint" (some 8)).map
          (fun d => (d.length, d.get (List.replicate 8 false) 0))
        = Except.ok (some 8, Except.ok 0))
    ∧ (Register.get_dtype uintRegistry "bogus" (some 8) = Except.error PyErr.valueError)
    ∧ (Register.get_dtype badRegistry "bad" (some 5) = Except.error PyErr.valueError)) := by
  intro reg name len m L k
  refine ⟨?_, ?_, ?_, ?_, ?_, ?_, rfl, rfl, rfl⟩
  · intro h
    simp [Register.get_dtype, h]
  · intro h
    simp [MetaDtype.getDtype, h]
  · intro h1 h2
    simp [MetaDtype.getDtype, h1, h2, Except.map]
  · intro h1 h2 hL hk0 hkL
    have : k ≠ 0 ∧ some k ≠ m.length := ⟨hk0, by simp [hL, hkL]⟩
    simp [MetaDtype.getDtype, h1, h2, this]
  · intro h
    simp [MetaDtype.getDtype, h, Except.map]
  · intro h
    simp [MetaDtype.getDtype, h]

/-- C2 witness: the unknown-length family `ue` rejects an explicit
length. -/
theorem get_dtype_binding_rules_witness :
    ueMeta.is_unknown_length = true
    ∧ ueMeta.getDtype (some 4) = Except.error PyErr.valueError :=
  ⟨by decide, (get_dtype_binding_rules [] "x" none ueMeta 0 4).2.1 (by decide)⟩

/-- Pin the value of `Int.log 2` on a positive rational by bracketing it
between two powers of two. -/
theorem log2_rat_eq (q : ℚ) (z : ℤ) (hq : 0 < q) (h1 : (2 : ℚ) ^ z ≤ q)
    (h2 : q < (2 : ℚ) ^ (z + 1)) : Int.log 2 q = z := by
  have ha : z ≤ Int.log 2 q := (Int.zpow_le_iff_le_log (by norm_num) hq).1 (by exact_mod_cast h1)
  have hb : Int.log 2 q < z + 1 :=
    (Int.lt_zpow_iff_log_lt (by norm_num) hq).1 (by exact_mod_cast h2)
  omega

/-- Evaluation of the binary8 encoder tail on the normal-number path. -/
theorem body_eval (fmt : Binary8Format) (sign_bit : ℕ) (q : ℚ) (E M : ℤ)
    (hlog : Int.log 2 q = E)
    (hM : ⌊(q / (2 : ℚ) ^ E - 1) * (2 : ℚ) ^ ((8 : ℤ) - fmt.exp_bits)⌋ = M)
    (hbias : 0 ≤ E + fmt.bias) (hupper : E + fmt.bias < 2 ^ fmt.exp_bits - 1) :
    fmt.float_to_int8_body sign_bit q
      = sign_bit ||| ((E + fmt.bias).toNat <<< (7 - fmt.exp_bits))
          ||| (M.toNat &&& (2 ^ (7 - fmt.exp_bits) - 1)) := by
  simp only [Binary8Format.float_to_int8_body, hlog, hM,
    if_neg (by omega : ¬ (E + fmt.bias < 0))]
  rw [if_neg (by omega : ¬ ((2 : ℤ) ^ fmt.exp_bits - 1 ≤ E + fmt.bias))]

/-- The decode LUT is the decode function tabulated over all 256 codes. -/
theorem lut_entry (fmt : Binary8Format) (i : ℕ) (h : i < 256) :
    (createLUT_for_binary8_to_float fmt).get? i = some (binary8_decode fmt i) := by
  simp [createLUT_for_binary8_to_float, List.getElem?_map, List.getElem?_range, h]

/-- C7: for the `p4binary` format (`exp_bits = 4`, `bias = 8`), encoding
`0.0` yields `0x00`, NaN yields `0xFF` and negative infinity yields
`0x80 ||| 0x7F`; for every binary8 format, NaN maps to the all-ones 8-bit
pattern, any zero maps to `0`, and a negative finite value is encoded by
setting the sign bit `0x80` and running the magnitude path on its absolute
value. -/
theorem binary8_encode_special_values :
    (p4binary_fmt.float_to_int8 (PyFloat.zero false) = 0x00)
    ∧ (p4binary_fmt.float_to_int8 PyFloat.nan = 0xFF)
    ∧ (p4binary_fmt.float_to_int8 (PyFloat.inf true) = 0x80 ||| 0x7F)
    ∧ (∀ fmt : Binary8Format, fmt.float_to_int8 PyFloat.nan = 0xFF)
    ∧ (∀ fmt : Binary8Format, ∀ f : PyFloat, f.isZero = true → fmt.float_to_int8 f = 0)
    ∧ (∀ fmt : Binary8Format, ∀ q : ℚ, 0 < q →
        fmt.float_to_int8 (PyFloat.finite (-q)) = fmt.float_to_int8_body 0x80 q
        ∧ fmt.float_to_int8 (PyFloat.finite q) = fmt.float_to_int8_body 0x00 q) := by
  refine ⟨rfl, rfl, rfl, fun _ => rfl, ?_, ?_⟩
  · intro fmt f hz
    cases f with
    | nan => simp [PyFloat.isZero] at hz
    | inf b => simp [PyFloat.isZero] at hz
    | zero b => rfl
    | finite q =>
      have hq : q = 0 := by simpa [PyFloat.isZero] using hz
      subst hq
      rfl
  · intro fmt q hq
    have hne : ¬ ((-q : ℚ) = 0) := by
      intro h
      rw [neg_eq_zero] at h
      exact absurd h (ne_of_gt hq)
    have hlt : (-q : ℚ) < 0 := neg_lt_zero.2 hq
    have hnlt : ¬ (q < 0) := not_lt.2 (le_of_lt hq)
    have hne' : ¬ (q = 0) := ne_of_gt hq
    constructor
    · simp [Binary8Format.float_to_int8, PyFloat.isnan, PyFloat.isZero, PyFloat.ltZero,
        PyFloat.isinf, PyFloat.neg, PyFloat.toRat, decide_eq_false hne, decide_eq_true hlt,
        hq, hne']
    · simp [Binary8Format.float_to_int8, PyFloat.isnan, PyFloat.isZero, PyFloat.ltZero,
        PyFloat.isinf, PyFloat.neg, PyFloat.toRat, decide_eq_false hne', decide_eq_false hnlt]

/-- C7 witness: concrete instances of the two hypothesis-bearing parts. -/
theorem binary8_encode_special_values_witness :
    ((0 : ℚ) < 1
      ∧ p4binary_fmt.float_to_int8 (PyFloat.finite (-1)) = p4binary_fmt.float_to_int8_body 0x80 1)
    ∧ ((PyFloat.zero true).isZero = true
      ∧ p4binary_fmt.float_to_int8 (PyFloat.zero true) = 0) :=
  ⟨⟨by norm_num,
      (binary8_encode_special_values.2.2.2.2.2 p4binary_fmt 1 (by norm_num)).1⟩,
    ⟨by decide,
      binary8_encode_special_values.2.2.2.2.1 p4binary_fmt (PyFloat.zero true) (by decide)⟩⟩

/-- C10: for every binary8 and every MXFP format, negative zero encodes to
the same code as positive zero, namely `0` — the `f == 0` test precedes the
sign extraction, so the zero's sign is discarded. -/
theorem negative_zero_encodes_like_zero :
    ∀ (fb : Binary8Format) (fm : MXFPFormat),
    fb.float_to_int8 (PyFloat.zero true) = 0
    ∧ fb.float_to_int8 (PyFloat.zero false) = 0
    ∧ fm.float_to_int (PyFloat.zero true) = 0
    ∧ fm.float_to_int (PyFloat.zero false) = 0 :=
  fun _ _ => ⟨rfl, rfl, rfl, rfl⟩

/-- C4: the value `9/1024` is exactly representable in the `p4binary`
format (it is the decode of code `0x09`, exponent field `1`), yet encoding
it yields code `0x0A` (the encoder scales the mantissa by
`2 ^ (8 - exp_bits)` instead of `2 ^ (7 - exp_bits)` and then masks to 3
bits), whose decode is `5/512` — so `decode_table[encode(v)] ≠ v`. -/
theorem binary8_roundtrip_breaks :
    binary8_decode p4binary_fmt 0x09 = PyFloat.finite (9 / 1024)
    ∧ (createLUT_for_binary8_to_float p4binary_fmt).get? 0x09
        = some (PyFloat.finite (9 / 1024))
    ∧ p4binary_fmt.float_to_int8 (PyFloat.finite (9 / 1024)) = 0x0A
    ∧ binary8_decode p4binary_fmt (p4binary_fmt.float_to_int8 (PyFloat.finite (9 / 1024)))
        = PyFloat.finite (5 / 512)
    ∧ binary8_decode p4binary_fmt (p4binary_fmt.float_to_int8 (PyFloat.finite (9 / 1024)))
        ≠ PyFloat.finite (9 / 1024) := by
  have hdec9 : binary8_decode p4binary_fmt 9 = PyFloat.finite (9 / 1024) := by
    have h1 : (9 : ℕ) &&& 128 = 0 := by decide
    have h2 : (9 : ℕ) &&& 7 = 1 := by decide
    simp [binary8_decode, p4binary_fmt, mkBinary8Format, h1, h2]
    norm_num
  have hdec10 : binary8_decode p4binary_fmt 10 = PyFloat.finite (5 / 512) := by
    have h1 : (10 : ℕ) &&& 128 = 0 := by decide
    have h2 : (10 : ℕ) &&& 7 = 2 := by decide
    simp [binary8_decode, p4binary_fmt, mkBinary8Format, h1, h2]
    norm_num
  have henc : p4binary_fmt.float_to_int8 (PyFloat.finite (9 / 1024)) = 10 := by
    have hz : ¬ ((9 : ℚ) / 1024 = 0) := by norm_num
    have hlt : ¬ ((9 : ℚ) / 1024 < 0) := by norm_num
    have hlog : Int.log 2 ((9 : ℚ) / 1024) = -7 := by
      apply log2_rat_eq _ _ (by norm_num)
      all_goals norm_num
    have hM : ⌊((9 : ℚ) / 1024 / (2 : ℚ) ^ (-7 : ℤ) - 1)
        * (2 : ℚ) ^ ((8 : ℤ) - p4binary_fmt.exp_bits)⌋ = 2 := by
      rw [Int.floor_eq_iff]
      all_goals norm_num [p4binary_fmt, mkBinary8Format]
    simp only [Binary8Format.float_to_int8, PyFloat.isnan, PyFloat.isZero, PyFloat.ltZero,
      PyFloat.isinf, PyFloat.toRat, decide_eq_false hz, decide_eq_false hlt]
    simp only [Bool.false_eq_true, if_false]
    rw [body_eval p4binary_fmt 0 ((9 : ℚ) / 1024) (-7) 2 hlog hM
      (by norm_num [p4binary_fmt, mkBinary8Format]) (by norm_num [p4binary_fmt, mkBinary8Format])]
    decide
  refine ⟨hdec9, ?_, henc, ?_, ?_⟩
  · rw [lut_entry p4binary_fmt 9 (by norm_num), hdec9]
  · rw [henc, hdec10]
  · rw [henc, hdec10]
    simp only [ne_eq, PyFloat.finite.injEq]
    norm_num

/-! ### Helper lemmas for the tokenizer -/

theorem isNameChar_props {c : Char} (h : isNameChar c = true) :
    c ≠ ',' ∧ c ≠ '*' ∧ c.isWhitespace = false := by
  refine ⟨?_, ?_, ?_⟩
  · intro hc
    subst hc
    exact absurd h (by decide)
  · intro hc
    subst hc
    exact absurd h (by decide)
  · by_contra hw
    rw [Bool.not_eq_false] at hw
    have hw' : c = ' ' ∨ c = '\t' ∨ c = '\x0d' ∨ c = '\n' := by
      simpa [Char.isWhitespace, or_assoc] using hw
    rcases hw' with h' | h' | h' | h' <;> subst h' <;> exact absurd h (by decide)

theorem isDigit_props {c : Char} (h : c.isDigit = true) :
    isNameChar c = true ∧ c ≠ ',' ∧ c ≠ '*' ∧ c.isWhitespace = false := by
  have hname : isNameChar c = true := by simp [isNameChar, h]
  exact ⟨hname, isNameChar_props hname⟩

theorem pySplitComma_no_comma : ∀ cs : List Char, (∀ c ∈ cs, c ≠ ',') →
    pySplitComma cs = [cs] := by
  intro cs
  induction cs with
  | nil => intro _; rfl
  | cons c cs ih =>
    intro h
    have hc : ¬ (c = ',') := h c (by simp)
    simp only [pySplitComma, if_neg hc, ih (fun x hx => h x (by simp [hx]))]

theorem dropWhile_ws_eq_self (cs : List Char) (h : ∀ c ∈ cs, c.isWhitespace = false) :
    cs.dropWhile Char.isWhitespace = cs := by
  cases cs with
  | nil => rfl
  | cons c cs' => simp [List.dropWhile_cons, h c (by simp)]

theorem pyStrip_id (cs : List Char) (h : ∀ c ∈ cs, c.isWhitespace = false) :
    pyStrip cs = cs := by
  rw [pyStrip, dropWhile_ws_eq_self cs h,
    dropWhile_ws_eq_self cs.reverse (fun c hc => h c (List.mem_reverse.1 hc)),
    List.reverse_reverse]

theorem revSplitStar_split : ∀ (a b : List Char), (∀ c ∈ a, c ≠ '*') →
    revSplitStar (a ++ '*' :: b) = some (a, b) := by
  intro a
  induction a with
  | nil => intro b _; simp [revSplitStar]
  | cons x a ih =>
    intro b h
    have hx : ¬ (x = '*') := h x (by simp)
    simp only [List.cons_append, revSplitStar, if_neg hx, List.append_eq,
      ih b (fun c hc => h c (by simp [hc]))]
    rfl

theorem matchMultiplicative_split (ds t : List Char) (ht : t ≠ [])
    (_hds : ∀ c ∈ ds, c ≠ '*') (htstar : ∀ c ∈ t, c ≠ '*') :
    matchMultiplicative (ds ++ '*' :: t) = some (ds, t) := by
  obtain ⟨c, tr, hct⟩ : ∃ c tr, t.reverse = c :: tr := by
    cases htr : t.reverse with
    | nil => exact absurd (List.reverse_eq_nil_iff.1 htr) ht
    | cons c tr => exact ⟨c, tr, rfl⟩
  have hct' : (c :: tr).reverse = t := by rw [← hct, List.reverse_reverse]
  have hrev : (ds ++ '*' :: t).reverse = c :: (tr ++ '*' :: ds.reverse) := by
    rw [List.reverse_append, List.reverse_cons, hct]
    simp
  have hstar_tr : ∀ x ∈ tr, x ≠ '*' := by
    intro x hx
    apply htstar
    exact List.mem_reverse.1 (by rw [hct]; exact List.mem_cons_of_mem _ hx)
  simp only [matchMultiplicative, hrev, revSplitStar_split tr ds.reverse hstar_tr,
    List.reverse_reverse, hct']

theorem expandsTo_unique {s t t' : List Char} (h1 : ExpandsTo s t) :
    ExpandsTo s t' → t = t' := by
  induction h1 with
  | done cs hstep =>
    intro h2
    cases h2 with
    | done => rfl
    | step _ cs' _ hstep' _ =>
      rw [hstep] at hstep'
      simp at hstep'
  | step cs cs' tt hstep htail ih =>
    intro h2
    cases h2 with
    | done _ hstep' =>
      rw [hstep'] at hstep
      simp at hstep
    | step _ cs'' _ hstep' htail' =>
      have heq : cs' = cs'' := by
        rw [hstep] at hstep'
        exact Option.some.inj (Except.ok.inj hstep')
      subst heq
      exact ih htail'

/-- C9: `expand_brackets` rewrites `"2*(uint8,uint8)"` to
`"uint8,uint8,uint8,uint8"` (and that result is unique), so the tokenizer
gives exactly the same (stretchy flag, token list) output on both strings;
concretely the tokens are four copies of `("uint", 8, none)`; and in
general a factor prefix `N*` on a name-int token produces `N` repeated
identical `(name, length, value)` triples. -/
theorem tokenparser_bracket_expansion :
    ∀ (keys : List String),
    expand_brackets_to "2*(uint8,uint8)" "uint8,uint8,uint8,uint8"
    ∧ (∀ t : String, expand_brackets_to "2*(uint8,uint8)" t →
        tokenparser t keys = tokenparser "uint8,uint8,uint8,uint8" keys)
    ∧ tokenparser "uint8,uint8,uint8,uint8" []
        = Except.ok (false, List.replicate 4 ("uint", some (8 : ℤ), (none : Option String)))
    ∧ (∀ (ds t : List Char) (name : String) (len : Option ℤ) (v : ℤ),
        ds ≠ [] → (∀ c ∈ ds, c.isDigit = true) →
        (∀ c ∈ t, isNameChar c = true ∨ c = ':') →
        pyInt? ds = some v →
        matchNameInt t = some (name, len) →
        String.mk (ds ++ '*' :: t) ∉ keys →
        tokenparser (String.mk (ds ++ '*' :: t)) keys
          = Except.ok (false, List.replicate v.toNat (name, len, (none : Option String)))) := by
  intro keys
  have hexp : ExpandsTo "2*(uint8,uint8)".toList "uint8,uint8,uint8,uint8".toList :=
    ExpandsTo.step _ _ _ (by rfl) (ExpandsTo.done _ (by rfl))
  refine ⟨hexp, ?_, by rfl, ?_⟩
  · intro t ht
    obtain ⟨data⟩ := t
    have hd : data = "uint8,uint8,uint8,uint8".toList := expandsTo_unique ht hexp
    subst hd
    rfl
  · intro ds t name len v hds hdig hchars hint hname hkeys
    have ht : t ≠ [] := by
      intro h
      subst h
      simp [matchNameInt] at hname
    have htstar : ∀ c ∈ t, c ≠ '*' := by
      intro c hc
      rcases hchars c hc with h | h
      · exact (isNameChar_props h).2.1
      · subst h; decide
    have hdsstar : ∀ c ∈ ds, c ≠ '*' := fun c hc => (isDigit_props (hdig c hc)).2.2.1
    have hnocomma : ∀ c ∈ (ds ++ '*' :: t), c ≠ ',' := by
      intro c hc
      rcases List.mem_append.1 hc with h | h
      · exact (isDigit_props (hdig c h)).2.1
      · rcases List.mem_cons.1 h with h | h
        · subst h; decide
        · rcases hchars c h with h' | h'
          · exact (isNameChar_props h').1
          · subst h'; decide
    have hnows : ∀ c ∈ (ds ++ '*' :: t), c.isWhitespace = false := by
      intro c hc
      rcases List.mem_append.1 hc with h | h
      · exact (isDigit_props (hdig c h)).2.2.2
      · rcases List.mem_cons.1 h with h | h
        · subst h; decide
        · rcases hchars c h with h' | h'
          · exact (isNameChar_props h').2.2
          · subst h'; decide
    have hstrip := pyStrip_id (ds ++ '*' :: t) hnows
    have hsplitc := pySplitComma_no_comma (ds ++ '*' :: t) hnocomma
    have hmult := matchMultiplicative_split ds t ht hdsstar htstar
    have htok : tokstep keys (false, []) (ds ++ '*' :: t)
        = Except.ok (false, List.replicate v.toNat (name, len, (none : Option String))) := by
      simp only [tokstep, hstrip, if_neg hkeys, hmult, hint, hname, List.nil_append]
    show (pySplitComma (String.mk (ds ++ '*' :: t)).toList).foldlM (tokstep keys) (false, []) = _
    rw [show (String.mk (ds ++ '*' :: t)).toList = ds ++ '*' :: t from rfl, hsplitc]
    simp [List.foldlM, htok]

/-- C9 witness: the factor conjunct applied at `"3*uint8"` with no
reserved keys, all hypotheses discharged concretely. -/
theorem tokenparser_bracket_expansion_witness :
    (matchNameInt "uint8".toList = some ("uint", some 8)
      ∧ pyInt? "3".toList = some 3)
    ∧ tokenparser (String.mk ("3".toList ++ '*' :: "uint8".toList)) []
        = Except.ok (false, List.replicate (3 : ℤ).toNat ("uint", some (8 : ℤ), (none : Option String))) :=
  ⟨⟨by decide, by decide⟩,
    (tokenparser_bracket_expansion []).2.2.2 "3".toList "uint8".toList "uint" (some 8) 3
      (by decide) (by decide) (by decide) (by decide) (by decide) (by decide)⟩
